import Mathlib

/-!
Shallow embedding of `src/main.rs` of the real-vol repository: the candle data
model, the Parkinson volatility estimator `calculate_parkinson`, the rolling
window transform inside `fetch_rolling_volatility`, and the success check of
`fetch_ohlc`, together with theorems settling the specification claims.

`f64` arithmetic is idealised as exact real arithmetic for the value-level
claims; a separate model `FP` of IEEE-754 special values (`±∞`, `NaN`, with
exact finite payloads) is used for the claims about unguarded division by zero
and logarithms of non-positive prices, where only special-value propagation
(not rounding) is at stake.
-/

open scoped Classical

/-- Embedding of the Rust struct `CandleData` (src/main.rs lines 41-55): one
OHLC candle. `start` is the timestamp in milliseconds since the epoch (the
Rust code stores a `DateTime<Utc>` parsed from string-encoded milliseconds and
reads it back with `timestamp_millis()`, an identity round trip); prices are
real numbers standing for the parsed `f64` values; `volume` and `turnover` are
kept as the opaque strings the code carries. The Rust field `open` is a Lean
keyword, hence `open_`. -/
structure CandleData where
  start : Int
  open_ : ℝ
  high : ℝ
  low : ℝ
  close : ℝ
  volume : String
  turnover : String

/-- Embedding of the Rust struct `KlinesForTicker` (src/main.rs lines 18-23). -/
structure KlinesForTicker where
  symbol : String
  category : String
  list : List CandleData

/-- Embedding of the Rust struct `BybitResponse` (src/main.rs lines 11-16). -/
structure BybitResponse where
  retCode : Int
  retMsg : String
  result : KlinesForTicker

/-- The decision logic of `fetch_ohlc` (src/main.rs lines 59-72) once the
response body has been parsed: the two `assert!` statements accept the
response only when `retCode == 0` and `retMsg == "OK"`, and a failed assert
aborts the computation (modelled as `none`); on success the candle list of the
`result` field is returned. Transport and JSON decoding are outside the
embedding; this captures the success/failure decision on the parsed response. -/
def fetch_ohlc_check (response : BybitResponse) : Option (List CandleData) :=
  if response.retCode = 0 ∧ response.retMsg = "OK" then some response.result.list
  else none

/-- Embedding of `calculate_parkinson` (src/main.rs lines 74-83) with `f64`
arithmetic idealised as exact real arithmetic: `ln` is `Real.log`, `powi(2)`
is squaring, `f64::consts::LN_2` is `Real.log 2`, `.sqrt()` is `Real.sqrt`,
and the iterator `.sum()` is the sum of the mapped list. -/
noncomputable def calculate_parkinson (klines : List CandleData) : ℝ :=
  let sum : ℝ := (klines.map fun k => (Real.log k.high - Real.log k.low) ^ 2).sum
  let coefficient : ℝ := 1 / (4 * (klines.length : ℝ) * Real.log 2)
  let time_series_vol : ℝ := Real.sqrt (coefficient * sum)
  time_series_vol * Real.sqrt 365.25

/-- Embedding of Rust's slice iterator `windows(n)` (used at src/main.rs line
88): all contiguous subslices of length `n`, in order. For `n ≥ 1` it is empty
when the list is shorter than `n`, and otherwise has one window starting at
every offset `k ≤ l.length - n`. (Rust panics for `n = 0`; the code only calls
it with `n = 7`, and the claims about the transform assume `n ≥ 1`.) -/
def windows {α : Type} (n : Nat) (l : List α) : List (List α) :=
  if n = 0 ∨ l.length < n then []
  else (List.range (l.length + 1 - n)).map fun k => (l.drop k).take n

/-- Embedding of the pure windowing pipeline inside `fetch_rolling_volatility`
(src/main.rs lines 87-93), generalised over the window size (the code fixes it
to 7): each window of `window_size` consecutive candles is mapped to the pair
of the `start` timestamp of its last candle and the Parkinson estimate of the
window. `window.last().unwrap()` is modelled with `getLast?` and a default;
for `window_size ≥ 1` every produced window is non-empty, so the default is
never reached. -/
noncomputable def rolling_volatility (candles : List CandleData) (window_size : Nat) :
    List (Int × ℝ) :=
  (windows window_size candles).map fun window =>
    ((window.getLast?.map CandleData.start).getD 0, calculate_parkinson window)

/-- Pointwise scaling of a candle's four price fields by a constant `c`, used
to state the scale-invariance property of the estimator. -/
noncomputable def scaleCandle (c : ℝ) (k : CandleData) : CandleData :=
  { k with open_ := c * k.open_, high := c * k.high, low := c * k.low,
           close := c * k.close }

/-- A value of IEEE-754 binary64 arithmetic as the code's `f64` computations
see it, with the finite payload idealised as an exact real number: finite,
`+∞`, `-∞`, or `NaN`. The negative zero is not distinguished from the positive
zero; no operation on the code paths analysed here produces a negative zero. -/
inductive FP where
  | fin : ℝ → FP
  | inf : FP
  | ninf : FP
  | nan : FP

/-- IEEE negation on `FP` values. -/
noncomputable def fpNeg : FP → FP
  | FP.fin x => FP.fin (-x)
  | FP.inf => FP.ninf
  | FP.ninf => FP.inf
  | FP.nan => FP.nan

/-- IEEE addition on `FP` values (exact finite payloads): an infinity absorbs
finite values, opposite infinities give `NaN`, `NaN` propagates. -/
noncomputable def fpAdd : FP → FP → FP
  | FP.nan, _ => FP.nan
  | _, FP.nan => FP.nan
  | FP.fin x, FP.fin y => FP.fin (x + y)
  | FP.fin _, FP.inf => FP.inf
  | FP.fin _, FP.ninf => FP.ninf
  | FP.inf, FP.fin _ => FP.inf
  | FP.ninf, FP.fin _ => FP.ninf
  | FP.inf, FP.inf => FP.inf
  | FP.ninf, FP.ninf => FP.ninf
  | FP.inf, FP.ninf => FP.nan
  | FP.ninf, FP.inf => FP.nan

/-- IEEE subtraction on `FP` values, as addition of the negation. -/
noncomputable def fpSub (a b : FP) : FP :=
  fpAdd a (fpNeg b)

/-- IEEE multiplication on `FP` values: the sign of a finite factor decides
the signed infinity, zero times an infinity is `NaN`, `NaN` propagates. -/
noncomputable def fpMul : FP → FP → FP
  | FP.nan, _ => FP.nan
  | _, FP.nan => FP.nan
  | FP.fin x, FP.fin y => FP.fin (x * y)
  | FP.fin x, FP.inf => if 0 < x then FP.inf else if x < 0 then FP.ninf else FP.nan
  | FP.fin x, FP.ninf => if 0 < x then FP.ninf else if x < 0 then FP.inf else FP.nan
  | FP.inf, FP.fin y => if 0 < y then FP.inf else if y < 0 then FP.ninf else FP.nan
  | FP.ninf, FP.fin y => if 0 < y then FP.ninf else if y < 0 then FP.inf else FP.nan
  | FP.inf, FP.inf => FP.inf
  | FP.inf, FP.ninf => FP.ninf
  | FP.ninf, FP.inf => FP.ninf
  | FP.ninf, FP.ninf => FP.inf

/-- IEEE division on `FP` values: a nonzero finite value divided by zero gives
the correspondingly signed infinity (the zero here stands for the positive
zero, the only zero the modelled code paths produce), `0/0` and `∞/∞` give
`NaN`, a finite value divided by an infinity gives zero, `NaN` propagates. -/
noncomputable def fpDiv : FP → FP → FP
  | FP.nan, _ => FP.nan
  | _, FP.nan => FP.nan
  | FP.fin x, FP.fin y =>
      if y = 0 then if 0 < x then FP.inf else if x < 0 then FP.ninf else FP.nan
      else FP.fin (x / y)
  | FP.fin _, FP.inf => FP.fin 0
  | FP.fin _, FP.ninf => FP.fin 0
  | FP.inf, FP.fin y => if 0 ≤ y then FP.inf else FP.ninf
  | FP.ninf, FP.fin y => if 0 ≤ y then FP.ninf else FP.inf
  | FP.inf, FP.inf => FP.nan
  | FP.inf, FP.ninf => FP.nan
  | FP.ninf, FP.inf => FP.nan
  | FP.ninf, FP.ninf => FP.nan

/-- IEEE square root on `FP` values: `NaN` on negative inputs, `+∞` at `+∞`. -/
noncomputable def fpSqrt : FP → FP
  | FP.fin x => if 0 ≤ x then FP.fin (Real.sqrt x) else FP.nan
  | FP.inf => FP.inf
  | FP.ninf => FP.nan
  | FP.nan => FP.nan

/-- IEEE natural logarithm on `FP` values, the semantics of Rust's `f64::ln`:
`ln 0 = -∞`, `ln x = NaN` for `x < 0`, `ln (+∞) = +∞`. -/
noncomputable def fpLog : FP → FP
  | FP.fin x => if 0 < x then FP.fin (Real.log x) else if x = 0 then FP.ninf else FP.nan
  | FP.inf => FP.inf
  | FP.ninf => FP.nan
  | FP.nan => FP.nan

/-- Squaring on `FP` values, the semantics of `powi(2)` (`x * x`). -/
noncomputable def fpSq (a : FP) : FP :=
  fpMul a a

/-- The `f64` iterator `.sum()`: a left fold of IEEE addition starting from
the additive zero. -/
noncomputable def fpSum (l : List FP) : FP :=
  l.foldl fpAdd (FP.fin 0)

/-- Embedding of `calculate_parkinson` (src/main.rs lines 74-83) over the
IEEE special-value model `FP`, following the code's expression tree exactly:
`(k.high.ln() - k.low.ln()).powi(2)` summed over the candles, the coefficient
`1.0 / (4.0 * klines.len() as f64 * LN_2)`, then `(coefficient * sum).sqrt()`
times `365.25.sqrt()`. Finite payloads are exact reals, so this model is used
only for claims decided by special-value propagation, where no rounding is
involved. -/
noncomputable def calculate_parkinsonFP (klines : List CandleData) : FP :=
  let sum : FP :=
    fpSum (klines.map fun k => fpSq (fpSub (fpLog (FP.fin k.high)) (fpLog (FP.fin k.low))))
  let coefficient : FP :=
    fpDiv (FP.fin 1) (fpMul (fpMul (FP.fin 4) (FP.fin (klines.length : ℝ))) (FP.fin (Real.log 2)))
  fpMul (fpSqrt (fpMul coefficient sum)) (fpSqrt (FP.fin 365.25))

/-- The first candle of the spec's concrete scenario: high 110, low 100. -/
noncomputable def candle110 : CandleData :=
  ⟨0, 100, 110, 100, 110, "", ""⟩

/-- The second candle of the spec's concrete scenario: high 121, low 110. -/
noncomputable def candle121 : CandleData :=
  ⟨1, 110, 121, 110, 121, "", ""⟩

/-- A degenerate candle with `high = low = 5`, used for the zero-range case. -/
noncomputable def candleFlat : CandleData :=
  ⟨2, 5, 5, 5, 5, "", ""⟩

/-- A candle violating the positivity precondition: `low = 0`. -/
noncomputable def candleZeroLow : CandleData :=
  ⟨3, 1, 1, 0, 1, "", ""⟩

/-- The failing response of the fetch scenario: `retCode 1`, `retMsg "ERR"`. -/
def responseFail : BybitResponse :=
  ⟨1, "ERR", ⟨"BTCUSDT", "spot", []⟩⟩

/-- Two list lookups at equal positions agree. -/
theorem get_index_congr {α : Type} (l : List α) {i j : Nat} (hij : i = j)
    (hi : i < l.length) (hj : j < l.length) :
    l.get ⟨i, hi⟩ = l.get ⟨j, hj⟩ := by
  cases hij
  rfl

/-- Number of windows: `l.length + 1 - n` in truncated subtraction, for any
window size `n ≥ 1`. -/
theorem windows_length {α : Type} (n : Nat) (l : List α) (hn : 1 ≤ n) :
    (windows n l).length = l.length + 1 - n := by
  unfold windows
  by_cases h : n = 0 ∨ l.length < n
  · rw [if_pos h]
    simp only [List.length_nil]
    omega
  · rw [if_neg h]
    simp only [List.length_map, List.length_range]

/-- The `k`-th window is the length-`n` slice of `l` starting at offset `k`. -/
theorem windows_getElem {α : Type} (n : Nat) (l : List α) (k : Nat) (hn : 1 ≤ n)
    (hk : k < (windows n l).length) :
    (windows n l).get ⟨k, hk⟩ = (l.drop k).take n := by
  have hlen := windows_length n l hn
  have hnl : ¬(n = 0 ∨ l.length < n) := by
    rw [hlen] at hk
    omega
  have hk' : k < (windows n l).length := hk
  rw [hlen] at hk'
  simp only [windows, if_neg hnl, List.get_eq_getElem, List.getElem_map, List.getElem_range]

/-- The rolling transform produces one point per window. -/
theorem rolling_volatility_length (candles : List CandleData) (W : Nat) (hW : 1 ≤ W) :
    (rolling_volatility candles W).length = candles.length + 1 - W := by
  unfold rolling_volatility
  rw [List.length_map, windows_length W candles hW]

/-- The first component of the `k`-th rolling point is the `start` timestamp
of candle `W - 1 + k`, the last candle of the `k`-th window. -/
theorem rolling_volatility_get_fst (candles : List CandleData) (W k : Nat) (hW : 1 ≤ W)
    (hk : k < (rolling_volatility candles W).length)
    (hk' : W - 1 + k < candles.length) :
    ((rolling_volatility candles W).get ⟨k, hk⟩).1 = (candles.get ⟨W - 1 + k, hk'⟩).start := by
  have hkR : k < (rolling_volatility candles W).length := hk
  rw [rolling_volatility_length candles W hW] at hkR
  have hwin : k < (windows W candles).length := by
    rw [windows_length W candles hW]
    omega
  have hmap : ((rolling_volatility candles W).get ⟨k, hk⟩) =
      ((((candles.drop k).take W).getLast?.map CandleData.start).getD 0,
        calculate_parkinson ((candles.drop k).take W)) := by
    simp only [rolling_volatility, List.get_eq_getElem, List.getElem_map]
    rw [← List.get_eq_getElem (windows W candles) ⟨k, hwin⟩, windows_getElem W candles k hW hwin]
  rw [hmap]
  have hlenw : ((candles.drop k).take W).length = W := by
    simp only [List.length_take, List.length_drop]
    omega
  have hWw : W - 1 < ((candles.drop k).take W).length := by
    rw [hlenw]
    omega
  have hWl : ((candles.drop k).take W).length - 1 < ((candles.drop k).take W).length := by
    omega
  have hlast : ((candles.drop k).take W).getLast? =
      some (((candles.drop k).take W).get ⟨W - 1, hWw⟩) := by
    rw [List.getLast?_eq_getElem?, List.getElem?_eq_getElem hWl]
    exact congrArg some
      (((List.get_eq_getElem _ ⟨_, hWl⟩).symm).trans (get_index_congr _ (by omega) hWl hWw))
  rw [hlast, Option.map_some', Option.getD_some]
  have hdt : ((candles.drop k).take W).get ⟨W - 1, hWw⟩ = candles.get ⟨W - 1 + k, hk'⟩ := by
    have h1 : k + (W - 1) < candles.length := by omega
    simp only [List.get_eq_getElem, List.getElem_take, List.getElem_drop]
    have hidx : k + (W - 1) = W - 1 + k := by omega
    rw [← List.get_eq_getElem candles ⟨k + (W - 1), h1⟩, ← List.get_eq_getElem candles ⟨W - 1 + k, hk'⟩]
    congr 1
    exact Fin.ext hidx
  rw [hdt]

/-- Claim C2: for a candle sequence of length `L` and window size `W ≥ 1`,
`rolling_volatility` returns exactly `max 0 (L - W + 1)` points; in
particular, when `L < W` the result is the empty sequence, not an error. -/
theorem rolling_volatility_count (candles : List CandleData) (W : Nat) (hW : 1 ≤ W) :
    ((rolling_volatility candles W).length : ℤ) =
        max 0 ((candles.length : ℤ) - (W : ℤ) + 1) ∧
      (candles.length < W → rolling_volatility candles W = []) := by
  have hlen := rolling_volatility_length candles W hW
  constructor
  · rw [hlen]
    omega
  · intro hLW
    rw [← List.length_eq_zero, hlen]
    omega

/-- Claim C2 witness: with `W = 7` and an empty candle list the transform
yields zero points and the empty sequence. -/
theorem rolling_volatility_count_witness :
    1 ≤ 7 ∧
      (((rolling_volatility [] 7).length : ℤ) =
          max 0 ((([] : List CandleData).length : ℤ) - (7 : ℤ) + 1) ∧
        (([] : List CandleData).length < 7 → rolling_volatility [] 7 = [])) :=
  ⟨by norm_num, rolling_volatility_count [] 7 (by norm_num)⟩

/-- Claim C3: the `k`-th output point of `rolling_volatility` carries the
`start` timestamp of candle `W - 1 + k`, the last (most recent) candle of its
window, and if the input timestamps are strictly increasing then so are the
output timestamps (output order matches input window order). -/
theorem rolling_volatility_timestamps (candles : List CandleData) (W : Nat) (hW : 1 ≤ W) :
    (∀ k (hk : k < (rolling_volatility candles W).length)
        (hk' : W - 1 + k < candles.length),
        ((rolling_volatility candles W).get ⟨k, hk⟩).1 =
          (candles.get ⟨W - 1 + k, hk'⟩).start) ∧
      (candles.Pairwise (fun a b => a.start < b.start) →
        (rolling_volatility candles W).Pairwise (fun p q => p.1 < q.1)) := by
  constructor
  · intro k hk hk'
    exact rolling_volatility_get_fst candles W k hW hk hk'
  · intro hmono
    rw [List.pairwise_iff_get] at hmono ⊢
    intro i j hij
    have hlen := rolling_volatility_length candles W hW
    have hi' : W - 1 + (i : Nat) < candles.length := by
      have := i.isLt
      omega
    have hj' : W - 1 + (j : Nat) < candles.length := by
      have := j.isLt
      omega
    have hgi := rolling_volatility_get_fst candles W i hW i.isLt hi'
    have hgj := rolling_volatility_get_fst candles W j hW j.isLt hj'
    rw [hgi, hgj]
    apply hmono
    rw [Fin.mk_lt_mk]
    have : (i : Nat) < (j : Nat) := hij
    omega

/-- Claim C3 witness: instantiated at the two-candle scenario with window
size 1. -/
theorem rolling_volatility_timestamps_witness :
    1 ≤ 1 ∧
      ((∀ k (hk : k < (rolling_volatility [candle110, candle121] 1).length)
          (hk' : 1 - 1 + k < ([candle110, candle121] : List CandleData).length),
          ((rolling_volatility [candle110, candle121] 1).get ⟨k, hk⟩).1 =
            (([candle110, candle121] : List CandleData).get ⟨1 - 1 + k, hk'⟩).start) ∧
        (([candle110, candle121] : List CandleData).Pairwise (fun a b => a.start < b.start) →
          (rolling_volatility [candle110, candle121] 1).Pairwise (fun p q => p.1 < q.1))) :=
  ⟨by norm_num, rolling_volatility_timestamps [candle110, candle121] 1 (by norm_num)⟩

/-- Claim C7: the parsed-response check of `fetch_ohlc` succeeds, yielding the
response's candle list, exactly when `retCode = 0` and `retMsg = "OK"`; for
any other status the whole fetch fails (`none`), never an empty or default
candle list. -/
theorem fetch_ohlc_check_success_iff (r : BybitResponse) :
    (r.retCode = 0 ∧ r.retMsg = "OK" → fetch_ohlc_check r = some r.result.list) ∧
      (¬(r.retCode = 0 ∧ r.retMsg = "OK") → fetch_ohlc_check r = none) := by
  constructor
  · intro h
    simp only [fetch_ohlc_check, if_pos h]
  · intro h
    simp only [fetch_ohlc_check, if_neg h]

/-- Claim C7 witness: a response with `retCode = 1` and `retMsg = "ERR"` is
rejected outright. -/
theorem fetch_ohlc_check_success_iff_witness :
    (responseFail.retCode = 0 ∧ responseFail.retMsg = "OK" →
        fetch_ohlc_check responseFail = some responseFail.result.list) ∧
      (¬(responseFail.retCode = 0 ∧ responseFail.retMsg = "OK") →
        fetch_ohlc_check responseFail = none) :=
  fetch_ohlc_check_success_iff responseFail

/-- Claim C1: for every non-empty window with positive highs and lows,
`calculate_parkinson` returns
`sqrt (Σ (ln high_i - ln low_i)^2 / (4 * N * ln 2)) * sqrt 365.25`. -/
theorem calculate_parkinson_formula (klines : List CandleData)
    (hne : klines ≠ [])
    (hpos : ∀ k ∈ klines, 0 < k.high ∧ 0 < k.low) :
    calculate_parkinson klines =
      Real.sqrt ((klines.map fun k => (Real.log k.high - Real.log k.low) ^ 2).sum /
        (4 * (klines.length : ℝ) * Real.log 2)) * Real.sqrt 365.25 := by
  simp only [calculate_parkinson]
  rw [one_div_mul_eq_div]

/-- Claim C1 witness: the formula instantiated at a singleton window. -/
theorem calculate_parkinson_formula_witness :
    ([candle110] : List CandleData) ≠ [] ∧
      (∀ k ∈ ([candle110] : List CandleData), 0 < k.high ∧ 0 < k.low) ∧
      calculate_parkinson [candle110] =
        Real.sqrt ((([candle110] : List CandleData).map
            fun k => (Real.log k.high - Real.log k.low) ^ 2).sum /
          (4 * (([candle110] : List CandleData).length : ℝ) * Real.log 2)) *
          Real.sqrt 365.25 := by
  have hpos : ∀ k ∈ ([candle110] : List CandleData), 0 < k.high ∧ 0 < k.low := by
    intro k hk
    simp only [List.mem_singleton] at hk
    subst hk
    exact ⟨by norm_num [candle110], by norm_num [candle110]⟩
  exact ⟨by simp, hpos, calculate_parkinson_formula [candle110] (by simp) hpos⟩

/-- Claim C4: a non-empty window in which every candle has `high = low` (both
positive) yields exactly zero volatility. -/
theorem calculate_parkinson_flat (klines : List CandleData)
    (hne : klines ≠ [])
    (hfl : ∀ k ∈ klines, k.high = k.low ∧ 0 < k.high) :
    calculate_parkinson klines = 0 := by
  simp only [calculate_parkinson]
  have hsum : (klines.map fun k => (Real.log k.high - Real.log k.low) ^ 2).sum = 0 := by
    apply List.sum_eq_zero
    intro x hx
    simp only [List.mem_map] at hx
    obtain ⟨k, hk, rfl⟩ := hx
    rw [(hfl k hk).1]
    ring
  rw [hsum, mul_zero, Real.sqrt_zero, zero_mul]

/-- Claim C4 witness: a flat candle with `high = low = 5` gives volatility 0. -/
theorem calculate_parkinson_flat_witness :
    ([candleFlat] : List CandleData) ≠ [] ∧
      (∀ k ∈ ([candleFlat] : List CandleData), k.high = k.low ∧ 0 < k.high) ∧
      calculate_parkinson [candleFlat] = 0 := by
  have hfl : ∀ k ∈ ([candleFlat] : List CandleData), k.high = k.low ∧ 0 < k.high := by
    intro k hk
    simp only [List.mem_singleton] at hk
    subst hk
    exact ⟨by norm_num [candleFlat], by norm_num [candleFlat]⟩
  exact ⟨by simp, hfl, calculate_parkinson_flat [candleFlat] (by simp) hfl⟩

/-- Claim C5: the estimator is invariant under permuting the candles of a
non-empty window. -/
theorem calculate_parkinson_perm (klines klines' : List CandleData)
    (hne : klines ≠ []) (hperm : klines.Perm klines') :
    calculate_parkinson klines' = calculate_parkinson klines := by
  simp only [calculate_parkinson]
  have h1 : (klines'.map fun k => (Real.log k.high - Real.log k.low) ^ 2).sum
      = (klines.map fun k => (Real.log k.high - Real.log k.low) ^ 2).sum :=
    ((hperm.map fun k => (Real.log k.high - Real.log k.low) ^ 2).sum_eq).symm
  have h2 : ((klines'.length : ℕ) : ℝ) = ((klines.length : ℕ) : ℝ) := by
    rw [hperm.length_eq]
  rw [h1, h2]

/-- Claim C5 witness: swapping the two candles of the concrete scenario leaves
the estimate unchanged. -/
theorem calculate_parkinson_perm_witness :
    ([candle110, candle121] : List CandleData) ≠ [] ∧
      ([candle110, candle121] : List CandleData).Perm [candle121, candle110] ∧
      calculate_parkinson [candle121, candle110] =
        calculate_parkinson [candle110, candle121] := by
  have hperm : ([candle110, candle121] : List CandleData).Perm [candle121, candle110] :=
    List.Perm.swap candle121 candle110 []
  exact ⟨by simp, hperm,
    calculate_parkinson_perm [candle110, candle121] [candle121, candle110] (by simp) hperm⟩

/-- Claim C6: scaling every price of a non-empty window with positive highs
and lows by a positive constant leaves the estimate unchanged (exactly, in the
real-arithmetic idealisation of `f64`). -/
theorem calculate_parkinson_scale_invariant (klines : List CandleData) (c : ℝ)
    (hc : 0 < c) (hne : klines ≠ [])
    (hpos : ∀ k ∈ klines, 0 < k.high ∧ 0 < k.low) :
    calculate_parkinson (klines.map (scaleCandle c)) = calculate_parkinson klines := by
  have hmap : ((klines.map (scaleCandle c)).map
        fun k => (Real.log k.high - Real.log k.low) ^ 2)
      = klines.map fun k => (Real.log k.high - Real.log k.low) ^ 2 := by
    rw [List.map_map]
    apply List.map_congr_left
    intro k hk
    have hh := (hpos k hk).1
    have hl := (hpos k hk).2
    simp only [Function.comp_apply, scaleCandle]
    rw [Real.log_mul (ne_of_gt hc) (ne_of_gt hh), Real.log_mul (ne_of_gt hc) (ne_of_gt hl)]
    ring
  simp only [calculate_parkinson, List.length_map]
  rw [hmap]

/-- Claim C6 witness: doubling the prices of the singleton window. -/
theorem calculate_parkinson_scale_invariant_witness :
    (0 : ℝ) < 2 ∧ ([candle110] : List CandleData) ≠ [] ∧
      (∀ k ∈ ([candle110] : List CandleData), 0 < k.high ∧ 0 < k.low) ∧
      calculate_parkinson (([candle110] : List CandleData).map (scaleCandle 2)) =
        calculate_parkinson [candle110] := by
  have hpos : ∀ k ∈ ([candle110] : List CandleData), 0 < k.high ∧ 0 < k.low := by
    intro k hk
    simp only [List.mem_singleton] at hk
    subst hk
    exact ⟨by norm_num [candle110], by norm_num [candle110]⟩
  exact ⟨by norm_num, by simp, hpos,
    calculate_parkinson_scale_invariant [candle110] 2 (by norm_num) (by simp) hpos⟩

/-- Bounds on `log (11/10)` from the degree-4 partial sum of the logarithm
series with tail bound `(1/10)^5 / (9/10)`. -/
theorem log_11_10_bounds :
    (0.09529 : ℝ) < Real.log (11 / 10) ∧ Real.log (11 / 10) < 0.09532 := by
  have habs : |(-(1 / 10) : ℝ)| < 1 := by
    rw [abs_neg]
    rw [abs_of_nonneg] <;> norm_num
  have h := Real.abs_log_sub_add_sum_range_le habs 4
  rw [Finset.sum_range_succ, Finset.sum_range_succ, Finset.sum_range_succ,
    Finset.sum_range_succ, Finset.sum_range_zero] at h
  rw [abs_neg] at h
  rw [abs_of_nonneg (by norm_num : (0 : ℝ) ≤ 1 / 10)] at h
  norm_num at h
  rw [abs_le] at h
  constructor <;> linarith [h.1, h.2]

/-- Bounds on the annualisation factor `sqrt 365.25`. -/
theorem sqrt_365_25_bounds :
    (19.1115 : ℝ) < Real.sqrt 365.25 ∧ Real.sqrt 365.25 < 19.1116 := by
  constructor
  · exact (Real.lt_sqrt (by norm_num)).mpr (by norm_num)
  · exact (Real.sqrt_lt' (by norm_num)).mpr (by norm_num)

/-- Closed form of the estimator on the spec's two-candle scenario: both
candles have log-range `log (11/10)`. -/
theorem scenario_value :
    calculate_parkinson [candle110, candle121] =
      Real.sqrt (1 / (4 * 2 * Real.log 2) * (2 * Real.log (11 / 10) ^ 2)) *
        Real.sqrt 365.25 := by
  have h1 : Real.log 110 - Real.log 100 = Real.log (11 / 10) := by
    rw [← Real.log_div (by norm_num) (by norm_num)]
    norm_num
  have h2 : Real.log 121 - Real.log 110 = Real.log (11 / 10) := by
    rw [← Real.log_div (by norm_num) (by norm_num)]
    norm_num
  simp only [calculate_parkinson, candle110, candle121, List.map_cons, List.map_nil,
    List.sum_cons, List.sum_nil, List.length_cons, List.length_nil]
  rw [h1, h2]
  norm_num
  ring_nf

/-- Numeric bounds on the estimator's value for the two-candle scenario: the
result lies strictly between 1.0935 and 1.0944. -/
theorem scenario_bounds :
    (1.0935 : ℝ) < calculate_parkinson [candle110, candle121] ∧
      calculate_parkinson [candle110, candle121] < 1.0944 := by
  rw [scenario_value]
  obtain ⟨hL1, hL2⟩ := log_11_10_bounds
  have hT1 := Real.log_two_gt_d9
  have hT2 := Real.log_two_lt_d9
  have hT0 : (0 : ℝ) < Real.log 2 := by linarith
  have hL0 : (0 : ℝ) < Real.log (11 / 10) := by linarith
  set L := Real.log (11 / 10) with hLdef
  set T := Real.log 2 with hTdef
  have hLsq1 : (0.09529 : ℝ) ^ 2 < L ^ 2 := by nlinarith
  have hLsq2 : L ^ 2 < (0.09532 : ℝ) ^ 2 := by nlinarith
  have hc1 : (0.0032749 : ℝ) < 1 / (4 * 2 * T) * (2 * L ^ 2) := by
    rw [div_mul_eq_mul_div, one_mul, lt_div_iff₀ (by linarith)]
    nlinarith
  have hc2 : 1 / (4 * 2 * T) * (2 * L ^ 2) < (0.0032776 : ℝ) := by
    rw [div_mul_eq_mul_div, one_mul, div_lt_iff₀ (by linarith)]
    nlinarith
  have hs1 : (0.05722 : ℝ) < Real.sqrt (1 / (4 * 2 * T) * (2 * L ^ 2)) := by
    apply (Real.lt_sqrt (by norm_num)).mpr
    nlinarith
  have hs2 : Real.sqrt (1 / (4 * 2 * T) * (2 * L ^ 2)) < (0.05726 : ℝ) := by
    apply (Real.sqrt_lt' (by norm_num)).mpr
    nlinarith
  obtain ⟨hb1, hb2⟩ := sqrt_365_25_bounds
  have hsn : (0 : ℝ) ≤ Real.sqrt (1 / (4 * 2 * T) * (2 * L ^ 2)) := Real.sqrt_nonneg _
  have hbn : (0 : ℝ) ≤ Real.sqrt 365.25 := Real.sqrt_nonneg _
  constructor
  · nlinarith
  · nlinarith

/-- Claim C8 counterexample: on the two-candle window (high 110 / low 100,
high 121 / low 110) the code's value (≈ 1.0939) is NOT within 1e-3 of the
claimed `0.08091 * sqrt 365.25` (≈ 1.5463). -/
theorem concrete_scenario_not_claimed_value :
    ¬ |calculate_parkinson [candle110, candle121] - 0.08091 * Real.sqrt 365.25| ≤ 1e-3 := by
  obtain ⟨hv1, hv2⟩ := scenario_bounds
  obtain ⟨hb1, hb2⟩ := sqrt_365_25_bounds
  intro h
  rw [abs_le] at h
  linarith [h.1]

/-- Claim C8 amended: the two-candle scenario yields ≈ 1.0939, within an
absolute tolerance of 1e-3 of `0.05724 * sqrt 365.25` (the spec's raw value
0.08091 dropped the window-length factor `N = 2` from the denominator; the
correct raw value is `ln 1.1 / (2 sqrt (ln 2)) ≈ 0.05724`). -/
theorem concrete_scenario_amended :
    |calculate_parkinson [candle110, candle121] - 0.05724 * Real.sqrt 365.25| ≤ 1e-3 := by
  obtain ⟨hv1, hv2⟩ := scenario_bounds
  obtain ⟨hb1, hb2⟩ := sqrt_365_25_bounds
  rw [abs_le]
  constructor <;> linarith

/-- Claim C10: on the empty window the coefficient `1 / (4 * 0 * ln 2)` is an
unguarded division by zero: under IEEE semantics `calculate_parkinson` does
not error but returns `NaN` (from `+∞ × 0`), not `0`. -/
theorem calculate_parkinson_empty_nan : calculate_parkinsonFP [] = FP.nan := by
  simp only [calculate_parkinsonFP, List.map_nil, fpSum, List.foldl_nil, List.length_nil,
    Nat.cast_zero]
  norm_num [fpMul, fpDiv, fpSqrt]

/-- Claim C9: the code has no positivity guard: on a window whose candle has
`low = 0` (a violated precondition) the IEEE evaluation silently yields `+∞`
instead of failing explicitly. -/
theorem calculate_parkinson_zero_low_inf :
    calculate_parkinsonFP [candleZeroLow] = FP.inf := by
  have hlog2 : (0 : ℝ) < Real.log 2 := Real.log_pos (by norm_num)
  have hsqrt : (0 : ℝ) < Real.sqrt 365.25 := Real.sqrt_pos.mpr (by norm_num)
  simp only [calculate_parkinsonFP, candleZeroLow, List.map_cons, List.map_nil, fpSum,
    List.foldl_cons, List.foldl_nil, List.length_cons, List.length_nil, Nat.cast_ofNat,
    Nat.cast_one, Nat.cast_zero]
  norm_num [fpLog, fpSub, fpNeg, fpAdd, fpMul, fpSq, fpDiv, fpSqrt, Real.log_one,
    hlog2, hsqrt, ne_of_gt]
